import Mathlib

/-!
# OpenMetadata SQL lineage-parsing core: a verified model

The repository's lineage core (`LineageParser`, its raw-query cleaner,
table-name canonicalizer and join-graph builder) is exercised by
`ingestion/tests/unit/test_query_parser.py`.  The production module
`metadata/ingestion/lineage/parser.py` is not part of the source tree we
were given, so the definitions below are modelled from the specification
(`spec.md`, sections 3, 4.2, 4.4, 4.5, 6 and 8) and kept consistent with
the expectations recorded in the unit tests.  Every definition carries a
doc comment naming the component it models.
-/

namespace OpenMetadata

/-- Lower-case a single character (ASCII case folding, as used by the
canonicalizer's default lower-casing dialects). -/
def lcChar (c : Char) : Char := c.toLower

/-- Lower-case a character list. -/
def lcList (cs : List Char) : List Char := cs.map lcChar

/-- Lower-case a string. -/
def lcStr (s : String) : String := ⟨lcList s.data⟩

/-- The double-quote character, written via its code point. -/
def dq : Char := Char.ofNat 34

/-- The single-quote (apostrophe) character, written via its code point. -/
def sq : Char := Char.ofNat 39

/-- A single-quote string, used to assemble SQL literals. -/
def sqs : String := ⟨[sq]⟩

/-- Modelled from the spec: the identifier-quoting characters stripped by
the Table Name Canonicalizer (bracket pairs and double-quote pairs,
spec 4.4). -/
def isQuoteChar (c : Char) : Bool := c = '[' || c = ']' || c = dq

/-- Remove every bracket/double-quote character from an identifier. -/
def stripQuoteChars (cs : List Char) : List Char :=
  cs.filter (fun c => !isQuoteChar c)

/-- Drop every leading stage marker `@` (spec 4.4: a Location's raw name
has the leading `@` stripped; stripping all leading markers makes the
operation defensive on already-clean names). -/
def dropAts : List Char → List Char
  | '@' :: rest => dropAts rest
  | cs => cs

/-- Split a character list at the dots, keeping the segments. -/
def splitDots : List Char → List (List Char)
  | [] => [[]]
  | c :: rest =>
    if c = '.' then [] :: splitDots rest
    else
      match splitDots rest with
      | [] => [[c]]
      | s :: ss => (c :: s) :: ss

/-- Join segments with dots (inverse of `splitDots` on dot-free parts). -/
def joinDots : List (List Char) → List Char
  | [] => []
  | [s] => s
  | s :: rest => s ++ '.' :: joinDots rest

/-- Modelled from the spec: the Table data model (spec 3).  A relational
identifier with an optional (already canonicalized, dotted) schema
qualifier, the as-written name of its last segment, and a flag telling a
`Location` (stage/storage reference) from a `Table`. -/
structure SqlTable where
  schema : Option String
  rawName : String
  loc : Bool
deriving DecidableEq, Repr

/-- The schema rendered as the engine renders it: `<default>` when the
identifier carried no explicit qualifier. -/
def SqlTable.schemaStr (t : SqlTable) : String :=
  t.schema.getD "<default>"

/-- The engine's string form of a table: `schema.name`, lower-cased. -/
def SqlTable.str (t : SqlTable) : String :=
  t.schemaStr ++ "." ++ lcStr t.rawName

/-- Modelled from the spec: the `Location` constructor (spec 4.4 and the
stage round-trip of spec 8).  The leading `@` is stripped; a dotted stage
identifier such as `@db.schema.stage` keeps `db.schema` as its
(lower-cased) schema while the raw name keeps its original case; any
`/path` suffix after the stage name is not part of the identifier. -/
def mkLocation (s : String) : SqlTable :=
  let core := (dropAts s.data).takeWhile (fun c => c ≠ '/')
  let segs := splitDots core
  match segs.reverse with
  | [] => { schema := none, rawName := "", loc := true }
  | last :: revInit =>
    { schema :=
        if revInit.isEmpty then none
        else some ⟨lcList (joinDots revInit.reverse)⟩
      rawName := ⟨last⟩
      loc := true }

/-- A plain table with no schema qualifier, as `Table("my_table")`. -/
def mkTable (s : String) : SqlTable :=
  { schema := none, rawName := s, loc := false }

/-- Modelled from the spec: `LineageParser.clean_table_name` (spec 4.4).
Strips bracket/double-quote characters and then any leading stage marker
from the raw name; the class (Table vs Location) and the schema pass
through unchanged. -/
def clean_table_name (t : SqlTable) : SqlTable :=
  { t with rawName := ⟨dropAts (stripQuoteChars t.rawName.data)⟩ }

/-- An identifier is clean when it has no quoting characters and no
leading stage marker. -/
def cleanIdent (s : String) : Prop :=
  (s.data.all (fun c => !isQuoteChar c)) = true ∧ dropAts s.data = s.data

instance (s : String) : Decidable (cleanIdent s) :=
  inferInstanceAs (Decidable (_ ∧ _))

/-! ## Raw Query Cleaner (spec 4.2)

`clean_raw_query` pre-processes one raw SQL statement: it trims it,
strips a `COPY GRANTS` clause, truncates `MERGE INTO ... USING (...)`
after the `USING` source, filters out generic file-`COPY` and
`CREATE TRIGGER/FUNCTION/PROCEDURE` statements, and passes everything
else through unchanged.  Verb detection is case-insensitive and ignores
leading whitespace and comments. -/

/-- Case-insensitive check that `cs` starts with the (lower-case)
pattern `pat`. -/
def startsWithCI : List Char → List Char → Bool
  | [], _ => true
  | _ :: _, [] => false
  | p :: ps, c :: cs => lcChar c = p && startsWithCI ps cs

/-- Drop the remainder of a block comment, through the closing `*/`. -/
def dropBlockComment : List Char → List Char
  | [] => []
  | '*' :: '/' :: rest => rest
  | _ :: rest => dropBlockComment rest

/-- Drop the remainder of a `--` line comment, through the newline. -/
def dropLineComment : List Char → List Char
  | [] => []
  | '\n' :: rest => rest
  | _ :: rest => dropLineComment rest

/-- Strip leading whitespace and comments, fuelled by the list length. -/
def stripLeadAux : Nat → List Char → List Char
  | 0, cs => cs
  | n + 1, cs =>
    match cs with
    | [] => []
    | c :: rest =>
      if c.isWhitespace then stripLeadAux n rest
      else if c = '/' then
        match rest with
        | '*' :: rest2 => stripLeadAux n (dropBlockComment rest2)
        | _ => cs
      else if c = '-' then
        match rest with
        | '-' :: rest2 => stripLeadAux n (dropLineComment rest2)
        | _ => cs
      else cs

/-- Strip leading whitespace and comments. -/
def stripLead (cs : List Char) : List Char := stripLeadAux cs.length cs

/-- Characters that may form a word for verb detection. -/
def isWordChar (c : Char) : Bool := c.isAlpha || c.isDigit || c = '_'

/-- Read the next word, lower-cased, skipping leading whitespace and
comments; also return the remaining characters. -/
def nextWord (cs : List Char) : String × List Char :=
  let cs := stripLead cs
  (⟨lcList (cs.takeWhile isWordChar)⟩, cs.dropWhile isWordChar)

/-- The statement verbs the cleaner distinguishes (spec 4.2). -/
inductive Verb
  | mergeInto
  | copyInto
  | copyGeneric
  | createRoutine
  | other
deriving DecidableEq, Repr

/-- Routine kinds whose `CREATE` statements carry no lineage. -/
def routineKind (w : String) : Bool :=
  w = "trigger" || w = "function" || w = "procedure"

/-- Modelled from the spec: verb detection for the cleaner's rules
(spec 4.2) — case-insensitive, leading comments/whitespace ignored. -/
def detectVerb (cs : List Char) : Verb :=
  let (w1, r1) := nextWord cs
  if w1 = "merge" then
    let (w2, _) := nextWord r1
    if w2 = "into" then .mergeInto else .other
  else if w1 = "copy" then
    let (w2, _) := nextWord r1
    if w2 = "into" then .copyInto else .copyGeneric
  else if w1 = "create" then
    let (w2, r2) := nextWord r1
    if w2 = "or" then
      let (w3, r3) := nextWord r2
      let (w4, _) := nextWord r3
      if w3 = "replace" && routineKind w4 then .createRoutine else .other
    else if routineKind w2 then .createRoutine else .other
  else .other

/-- Find the first case-insensitive occurrence of the (lower-case)
pattern, returning the characters before it, the matched characters as
written, and the characters after it. -/
def findCI (pat : List Char) : List Char → Option (List Char × List Char × List Char)
  | [] => if pat.isEmpty then some ([], [], []) else none
  | c :: cs =>
    if startsWithCI pat (c :: cs) then
      some ([], (c :: cs).take pat.length, (c :: cs).drop pat.length)
    else
      match findCI pat cs with
      | some (pre, m, post) => some (c :: pre, m, post)
      | none => none

/-- Replace the first case-insensitive occurrence of `pat` by `repl`. -/
def replaceFirstCI (pat repl cs : List Char) : List Char :=
  match findCI pat cs with
  | some (pre, _, post) => pre ++ repl ++ post
  | none => cs

/-- Take characters until the parenthesis depth `d` closes, keeping the
closing parenthesis. -/
def takeBalanced : Nat → List Char → List Char
  | _, [] => []
  | d, c :: rest =>
    if c = '(' then c :: takeBalanced (d + 1) rest
    else if c = ')' then
      if d ≤ 1 then [c] else c :: takeBalanced (d - 1) rest
    else c :: takeBalanced d rest

/-- Modelled from the spec: truncate a `MERGE INTO ... USING (...)`
statement right after the closing parenthesis of the `USING` clause
(spec 4.2), preserving everything before it. -/
def truncateMerge (cs : List Char) : List Char :=
  match findCI ("using".data) cs with
  | none => cs
  | some (pre, m, post) =>
    let beforeParen := post.takeWhile (fun c => c ≠ '(')
    match post.dropWhile (fun c => c ≠ '(') with
    | [] => cs
    | _ :: inner => pre ++ m ++ beforeParen ++ '(' :: takeBalanced 1 inner

/-- Trim leading and trailing whitespace. -/
def wsTrim (cs : List Char) : List Char :=
  ((cs.dropWhile (fun c => c.isWhitespace)).reverse.dropWhile
    (fun c => c.isWhitespace)).reverse

/-- The cleaner's normalized character stream: the statement trimmed and
with a `COPY GRANTS` clause collapsed (spec 4.2, first rule). -/
def cleanedChars (q : String) : List Char :=
  replaceFirstCI (" copy grants ".data) (" ".data) (wsTrim q.data)

/-- Modelled from the spec: `LineageParser.clean_raw_query` (spec 4.2).
Rules in order: strip `COPY GRANTS`; truncate `MERGE INTO ... USING (...)`;
drop generic file-`COPY` statements with no `@stage` token; keep every
`COPY INTO`; drop `CREATE [OR REPLACE] TRIGGER/FUNCTION/PROCEDURE`;
otherwise pass the statement through unchanged. -/
def clean_raw_query (q : String) : Option String :=
  let cs := cleanedChars q
  match detectVerb cs with
  | .mergeInto => some ⟨truncateMerge cs⟩
  | .copyInto => some ⟨cs⟩
  | .copyGeneric => if cs.contains '@' then some ⟨cs⟩ else none
  | .createRoutine => none
  | .other => some ⟨cs⟩

/-! ## Statement Parser/Runner (spec 4.3)

The repository delegates SQL analysis to a third-party lineage engine;
the spec (4.3, design note in section 9) asks for its contract —
dialect-aware table/column lineage extraction — behind a narrow
interface.  The model below reproduces that contract for the statement
shapes the tests exercise: SELECT-with-JOINs, CREATE TABLE AS SELECT,
and Snowflake COPY INTO. -/

/-- A SQL token: an identifier (with a flag marking quoted/bracketed
identifiers, which keep their case), a string literal, or a symbol. -/
inductive Tok
  | id (s : String) (q : Bool)
  | lit
  | sym (c : Char)
deriving DecidableEq, Repr

/-- Tokenize, fuelled by the character count (each step consumes at
least one character). -/
def tokenizeAux : Nat → List Char → List Tok
  | 0, _ => []
  | n + 1, cs =>
    match cs with
    | [] => []
    | c :: rest =>
      if c.isWhitespace then tokenizeAux n rest
      else if c = '/' then
        match rest with
        | '*' :: r2 => tokenizeAux n (dropBlockComment r2)
        | _ => .sym '/' :: tokenizeAux n rest
      else if c = '-' then
        match rest with
        | '-' :: r2 => tokenizeAux n (dropLineComment r2)
        | _ => .sym '-' :: tokenizeAux n rest
      else if c = dq then
        .id ⟨rest.takeWhile (fun x => x ≠ dq)⟩ true ::
          tokenizeAux n ((rest.dropWhile (fun x => x ≠ dq)).drop 1)
      else if c = '[' then
        .id ⟨rest.takeWhile (fun x => x ≠ ']')⟩ true ::
          tokenizeAux n ((rest.dropWhile (fun x => x ≠ ']')).drop 1)
      else if c = sq then
        .lit :: tokenizeAux n ((rest.dropWhile (fun x => x ≠ sq)).drop 1)
      else if isWordChar c then
        .id ⟨c :: rest.takeWhile isWordChar⟩ false ::
          tokenizeAux n (rest.dropWhile isWordChar)
      else .sym c :: tokenizeAux n rest

/-- Tokenize a character stream. -/
def tokenize (cs : List Char) : List Tok := tokenizeAux cs.length cs

/-- Is this token the given (lower-case) unquoted keyword? -/
def Tok.isKw (t : Tok) (k : String) : Bool :=
  match t with
  | .id s false => lcStr s = k
  | _ => false

/-- One segment of a dotted identifier, with its quoting flag. -/
structure Seg where
  text : String
  quoted : Bool
deriving DecidableEq, Repr

/-- Canonical form of a segment: quoted segments keep their case,
unquoted ones fold to lower case (spec 4.4). -/
def Seg.canon (s : Seg) : String := if s.quoted then s.text else lcStr s.text

/-- Continue a dotted identifier: consume `. seg` pairs. -/
def parseDotTail : List Tok → List Seg × List Tok
  | .sym '.' :: .id s q :: rest =>
    let (segs, r) := parseDotTail rest
    (⟨s, q⟩ :: segs, r)
  | toks => ([], toks)

/-- Parse a dotted identifier `seg(.seg)*`. -/
def parseDottedRef : List Tok → Option (List Seg × List Tok)
  | .id s q :: rest =>
    let (segs, r) := parseDotTail rest
    some (⟨s, q⟩ :: segs, r)
  | _ => none

/-- The canonical dotted name of a reference: schema-qualified only when
the query qualified it (spec 3, `clean_table_list`). -/
def refName (segs : List Seg) : String :=
  String.intercalate "." (segs.map Seg.canon)

/-- Turn a parsed dotted reference into a `Table` value. -/
def segsToTable (segs : List Seg) : SqlTable :=
  match segs.reverse with
  | [] => mkTable ""
  | last :: revInit =>
    { schema :=
        if revInit.isEmpty then none
        else some (String.intercalate "." (revInit.reverse.map Seg.canon))
      rawName := last.text
      loc := false }

/-- Keywords that cannot serve as a table alias. -/
def aliasStop (s : String) : Bool :=
  s = "join" || s = "inner" || s = "left" || s = "right" || s = "full" ||
  s = "cross" || s = "outer" || s = "on" || s = "where" || s = "group" ||
  s = "order" || s = "union" || s = "having" || s = "limit"

/-- Parse an optional table alias after a table reference. -/
def parseMaybeAlias : List Tok → Option String × List Tok
  | .id s q :: rest =>
    if !q && aliasStop (lcStr s) then (none, .id s q :: rest)
    else (some (Seg.canon ⟨s, q⟩), rest)
  | toks => (none, toks)

/-- A column reference `qualifier.column` from an ON predicate: the
qualifier canonicalized, the column kept as written (the engine keeps
column capitals, per the capitals test). -/
structure ColRef where
  qual : String
  col : String
deriving DecidableEq, Repr

/-- Parse a qualified column reference (at least two segments). -/
def parseColRef (toks : List Tok) : Option (ColRef × List Tok) :=
  match parseDottedRef toks with
  | some (segs, rest) =>
    match segs.reverse with
    | last :: q1 :: revQuals =>
      some (⟨String.intercalate "." ((q1 :: revQuals).reverse.map Seg.canon),
             last.text⟩, rest)
    | _ => none
  | none => none

/-- One raw equality join predicate from an ON clause. -/
structure RawJoin where
  left : ColRef
  right : ColRef
deriving DecidableEq, Repr

/-- Join modifier keywords to skip before `JOIN`. -/
def joinModifier (s : String) : Bool :=
  s = "inner" || s = "left" || s = "right" || s = "full" ||
  s = "cross" || s = "outer"

/-- Parse the chain of `JOIN t [alias] ON a.c = b.c` clauses, collecting
the joined tables (with aliases) and the raw equality predicates in
clause order.  Fuelled by the token count. -/
def parseJoinsAux : Nat → List Tok → List (List Seg × Option String) × List RawJoin
  | 0, _ => ([], [])
  | n + 1, toks =>
    match toks with
    | t :: rest =>
      if Tok.isKw t "join" then
        match parseDottedRef rest with
        | some (segs, r1) =>
          let (al, r2) := parseMaybeAlias r1
          match r2 with
          | t2 :: r3 =>
            if Tok.isKw t2 "on" then
              match parseColRef r3 with
              | some (lhs, r4) =>
                match r4 with
                | .sym '=' :: r5 =>
                  match parseColRef r5 with
                  | some (rhs, r6) =>
                    let (tbls, joins) := parseJoinsAux n r6
                    ((segs, al) :: tbls, ⟨lhs, rhs⟩ :: joins)
                  | none => ([(segs, al)], [])
                | _ => ([(segs, al)], [])
              | none => ([(segs, al)], [])
            else ([(segs, al)], [])
          | [] => ([(segs, al)], [])
        | none => ([], [])
      else if (match t with
               | .id s false => joinModifier (lcStr s)
               | _ => false) then
        parseJoinsAux n rest
      else ([], [])
    | [] => ([], [])

/-- Find the top-level `FROM` keyword, skipping parenthesized regions. -/
def findFromClause : Nat → List Tok → Option (List Tok)
  | _, [] => none
  | d, t :: rest =>
    match t with
    | .sym '(' => findFromClause (d + 1) rest
    | .sym ')' => findFromClause (d - 1) rest
    | _ =>
      if d = 0 && Tok.isKw t "from" then some rest
      else findFromClause d rest

/-- Parse the FROM/JOIN clause of a SELECT: the referenced tables with
their aliases, in order, and the raw join predicates. -/
def parseFromJoins (toks : List Tok) : List (List Seg × Option String) × List RawJoin :=
  match findFromClause 0 toks with
  | none => ([], [])
  | some rest =>
    match parseDottedRef rest with
    | none => ([], [])
    | some (segs, r1) =>
      let (al, r2) := parseMaybeAlias r1
      let (tbls, joins) := parseJoinsAux r2.length r2
      ((segs, al) :: tbls, joins)

/-- Modelled from the spec: the TableAliasMap (spec 3), alias →
canonical dotted table name, built once per query from its FROM/JOIN
clause. -/
def aliasEntries (tbls : List (List Seg × Option String)) : List (String × String) :=
  tbls.filterMap (fun e => e.2.map (fun a => (a, refName e.1)))

/-- Resolve an ON-clause qualifier: first through the alias map, then
against the name of a table in the FROM/JOIN list (spec 4.5 step 1);
unresolvable qualifiers yield `none` and are dropped (spec 7). -/
def resolveQual (tbls : List (List Seg × Option String)) (q : String) : Option String :=
  match (aliasEntries tbls).find? (fun e => e.1 == q) with
  | some e => some e.2
  | none =>
    match tbls.find? (fun e =>
        match e.1.reverse with
        | last :: _ => Seg.canon last == q
        | [] => false) with
    | some e => some (refName e.1)
    | none => none

/-! ## Join Graph Builder (spec 4.5) -/

/-- A column scoped to a table, as serialized into the catalog's
`tableUsageCount.TableColumn` schema. -/
structure TableColumn where
  table : String
  column : String
deriving DecidableEq, Repr

/-- One anchor column and the ordered columns joined with it
(`tableUsageCount.TableColumnJoin`). -/
structure TableColumnJoin where
  tableColumn : TableColumn
  joinedWith : List TableColumn
deriving DecidableEq, Repr

/-- Append a joined column under its anchor column: reuse the anchor's
`TableColumnJoin` when one exists, else add a new one at the end
(spec 4.5 step 3). -/
def addToJoinList : List TableColumnJoin → TableColumn → TableColumn → List TableColumnJoin
  | [], a, o => [⟨a, [o]⟩]
  | tcj :: rest, a, o =>
    if tcj.tableColumn = a then ⟨a, tcj.joinedWith ++ [o]⟩ :: rest
    else tcj :: addToJoinList rest a o

/-- Add one resolved join predicate under its anchor table's entry
(spec 4.5 step 2); absent anchors get a fresh entry at the end. -/
def addJoinEntry : List (String × List TableColumnJoin) → TableColumn → TableColumn →
    List (String × List TableColumnJoin)
  | [], a, o => [(a.table, [⟨a, [o]⟩])]
  | (k, l) :: rest, a, o =>
    if k = a.table then (k, addToJoinList l a o) :: rest
    else (k, l) :: addJoinEntry rest a o

/-- Modelled from the spec: the Join Graph Builder (spec 4.5).  Resolve
each ON equality through the alias map, group by the left-hand resolved
table, merge entries sharing the anchor column in clause order, and drop
predicates with an unresolvable side. -/
def buildJoins (tbls : List (List Seg × Option String)) (joins : List RawJoin) :
    List (String × List TableColumnJoin) :=
  joins.foldl
    (fun m j =>
      match resolveQual tbls j.left.qual, resolveQual tbls j.right.qual with
      | some lt, some rt => addJoinEntry m ⟨lt, j.left.col⟩ ⟨rt, j.right.col⟩
      | _, _ => m)
    []

/-- Look a table up in the join graph (absent keys have no entry,
spec 4.5 step 4). -/
def lookupJoins (m : List (String × List TableColumnJoin)) (k : String) :
    Option (List TableColumnJoin) :=
  match m.find? (fun e => e.1 == k) with
  | some e => some e.2
  | none => none

/-! ## CREATE TABLE AS SELECT column lineage -/

/-- A column scoped to a table in column-level lineage output
(the engine's `Column`): canonical dotted table plus column name. -/
structure Column where
  table : String
  column : String
deriving DecidableEq, Repr

/-- Parse `CREATE TABLE <ref> AS SELECT`, returning the target reference
and the tokens after `SELECT`. -/
def parseCtasHead (toks : List Tok) : Option (List Seg × List Tok) :=
  match toks with
  | t1 :: t2 :: rest =>
    if Tok.isKw t1 "create" && Tok.isKw t2 "table" then
      match parseDottedRef rest with
      | some (segs, r3) =>
        match r3 with
        | t4 :: t5 :: rest5 =>
          if Tok.isKw t4 "as" && Tok.isKw t5 "select" then some (segs, rest5)
          else none
        | _ => none
      | none => none
    else none
  | _ => none

/-- Parse one select-list item `col [AS] [alias]`: the source column
(canonicalized), the optional alias, whether `FROM` was reached, and the
remaining tokens. -/
def parseOneItem (toks : List Tok) : Option ((String × Option String) × Bool × List Tok) :=
  match parseDottedRef toks with
  | none => none
  | some (segs, r1) =>
    match segs.reverse with
    | [] => none
    | last :: _ =>
      let src := Seg.canon last
      match r1 with
      | .sym ',' :: r2 => some ((src, none), false, r2)
      | .id s q :: r2 =>
        if !q && lcStr s = "from" then some ((src, none), true, r2)
        else if !q && lcStr s = "as" then
          match r2 with
          | .id a qa :: r3 =>
            let al := Seg.canon ⟨a, qa⟩
            match r3 with
            | .sym ',' :: r4 => some ((src, some al), false, r4)
            | .id f false :: r4 =>
              if lcStr f = "from" then some ((src, some al), true, r4) else none
            | _ => some ((src, some al), true, r3)
          | _ => none
        else
          let al := Seg.canon ⟨s, q⟩
          match r2 with
          | .sym ',' :: r4 => some ((src, some al), false, r4)
          | .id f false :: r4 =>
            if lcStr f = "from" then some ((src, some al), true, r4) else none
          | _ => some ((src, some al), true, r2)
      | _ => some ((src, none), true, r1)

/-- Parse the select list down to `FROM`, fuelled by the token count. -/
def parseItems : Nat → List Tok → List (String × Option String) × List Tok
  | 0, toks => ([], toks)
  | n + 1, toks =>
    match parseOneItem toks with
    | none => ([], toks)
    | some (item, done, rest) =>
      if done then ([item], rest)
      else
        let (items, rem) := parseItems n rest
        (item :: items, rem)

/-! ## COPY INTO (Snowflake stage lineage) -/

/-- Read the next contiguous word of a `COPY INTO` clause: stops at
whitespace, separators and parentheses. -/
def copyWordStop (c : Char) : Bool :=
  c.isWhitespace || c = ';' || c = ',' || c = '(' || c = ')'

/-- Read one side word of a `COPY INTO` statement. -/
def nonWsWord (cs : List Char) : List Char × List Char :=
  let cs := stripLead cs
  (cs.takeWhile (fun c => !copyWordStop c), cs.dropWhile (fun c => !copyWordStop c))

/-- Does the word carry the Snowflake stage marker? -/
def headAt : List Char → Bool
  | '@' :: _ => true
  | _ => false

/-- Build a `Table` from a side word: quote characters stripped, dotted
qualifier lower-cased. -/
def mkTableWord (w : List Char) : SqlTable :=
  match (splitDots (stripQuoteChars w)).reverse with
  | [] => mkTable ""
  | last :: revInit =>
    { schema :=
        if revInit.isEmpty then none
        else some ⟨lcList (joinDots revInit.reverse)⟩
      rawName := ⟨last⟩
      loc := false }

/-- Modelled from the spec: one side of a `COPY INTO` — an `@`-marked
word is a stage reference producing a `Location`, anything else a
`Table` (spec 3 and 4.4). -/
def parseSideWord (w : List Char) : SqlTable :=
  if headAt w then mkLocation ⟨w⟩ else mkTableWord w

/-- Modelled from the spec: parse `COPY INTO <side> FROM <side>`
(spec 4.2's lineage-bearing shape), resolving a `(SELECT ... FROM t)`
source through the subquery to the underlying table.  Returns
`(target, source)`. -/
def parseCopyInto (cs : List Char) : Option (SqlTable × SqlTable) :=
  let (w1, r1) := nextWord cs
  if w1 = "copy" then
    let (w2, r2) := nextWord r1
    if w2 = "into" then
      let (tgtw, r3) := nonWsWord r2
      if tgtw.isEmpty then none
      else
        let (w4, r4) := nextWord r3
        if w4 = "from" then
          match stripLead r4 with
          | '(' :: inner =>
            let region := takeBalanced 1 inner
            match findCI ("from".data) region with
            | some (_, _, post) =>
              let (srcw, _) := nonWsWord post
              if srcw.isEmpty then none
              else some (parseSideWord tgtw, mkTableWord srcw)
            | none => none
          | r4s =>
            let (srcw, _) := nonWsWord r4s
            if srcw.isEmpty then none
            else some (parseSideWord tgtw, parseSideWord srcw)
        else none
    else none
  else none

/-! ## LineageParser facade (spec 4.6, 6) -/

/-- The SQL dialect selector (spec 4.1); unknown dialects fall back to
ANSI-equivalent behavior, and the per-dialect differences (bracket
quoting, case folding of quoted identifiers) are uniform across the
dialects the tests exercise. -/
inductive Dialect
  | ansi
  | mysql
  | tsql
  | snowflake
deriving DecidableEq, Repr

/-- The structured result of one parse (spec 6's properties). -/
structure LineageResult where
  source_tables : List SqlTable
  target_tables : List SqlTable
  column_lineage : List (Column × Column)
  table_joins : List (String × List TableColumnJoin)
  table_aliases : List (String × String)
deriving DecidableEq, Repr

/-- The empty result: no tables, no lineage, no joins. -/
def emptyResult : LineageResult := ⟨[], [], [], [], []⟩

/-- Deduplicate a table list, keeping first occurrences. -/
def dedupTables (seen : List SqlTable) : List SqlTable → List SqlTable
  | [] => []
  | t :: rest =>
    if t ∈ seen then dedupTables seen rest
    else t :: dedupTables (t :: seen) rest

/-- Modelled from the spec: dispatch one cleaned statement to the
matching handler (spec 4.3): COPY INTO stage lineage, CREATE TABLE AS
SELECT column lineage, or SELECT join extraction; statements the engine
has no structured result for yield empty sets, not an error. -/
def runStatement (cs : List Char) : LineageResult :=
  match parseCopyInto cs with
  | some (tgt, src) =>
    { emptyResult with source_tables := [src], target_tables := [tgt] }
  | none =>
    let toks := tokenize cs
    match parseCtasHead toks with
    | some (tgtSegs, rest) =>
      let (items, rem) := parseItems rest.length rest
      match parseDottedRef rem with
      | some (srcSegs, _) =>
        { emptyResult with
          source_tables := [segsToTable srcSegs]
          target_tables := [segsToTable tgtSegs]
          column_lineage := items.map (fun it =>
            (⟨refName srcSegs, it.1⟩, ⟨refName tgtSegs, it.2.getD it.1⟩)) }
      | none => emptyResult
    | none =>
      match toks with
      | t :: _ =>
        if Tok.isKw t "select" then
          let (tbls, joins) := parseFromJoins toks
          { emptyResult with
            source_tables := tbls.map (fun e => segsToTable e.1)
            table_joins := buildJoins tbls joins
            table_aliases := aliasEntries tbls }
        else emptyResult
      | [] => emptyResult

/-- Modelled from the spec: the `LineageParser(query, dialect)` facade
(spec 6).  The cleaner runs first; a filtered statement yields empty
results; the dialect resolver's differences are immaterial for the
modelled statement shapes, so every dialect uses the same analysis. -/
def parseLineage (q : String) (_d : Dialect) : LineageResult :=
  match clean_raw_query q with
  | none => emptyResult
  | some s => runStatement s.data

/-- `involved_tables`: union of source and target, de-duplicated by
canonical identity (spec 3's invariant, spec 6). -/
def involved_tables (r : LineageResult) : List SqlTable :=
  dedupTables [] (r.source_tables ++ r.target_tables)

/-! ## The queries of the unit tests and of the spec's calibration
scenarios (`test_query_parser.py`), SQL string literals assembled with
`sqs` for the single-quote character. -/

/-- The double-quote character as a string. -/
def dqs : String := ⟨[dq]⟩

/-- The calibration query of spec 8: three JOINs on table `foo`. -/
def colLineageQuery : String :=
  "\n        SELECT\n          a.col1,\n          a.col2 + b.col2 AS col2,\n          case \n            when col1 = 3 then " ++ sqs ++ "hello" ++ sqs ++ "\n            else " ++ sqs ++ "bye" ++ sqs ++ "\n          end as new_col\n        FROM foo a\n        JOIN db.grault b\n          ON a.col1 = b.col1\n        JOIN db.holis c\n          ON a.col1 = c.abc\n        JOIN db.random d\n          ON a.col2 = d.col2\n        WHERE a.col3 = " ++ sqs ++ "abc" ++ sqs ++ "\n    "

/-- The capitals query: unquoted upper-case table joined with a quoted
lower-case table. -/
def capitalsQuery : String :=
  "\n         SELECT\n           USERS.ID,\n           li.id\n        FROM TESTDB.PUBLIC.USERS\n        JOIN testdb.PUBLIC." ++ dqs ++ "lowercase_users" ++ dqs ++ " li\n          ON USERS.id = li.ID\n        ;\n        "

/-- The spec 8 column-rename CTAS example. -/
def ctasSpecQuery : String :=
  "CREATE TABLE t AS SELECT id AS new_id, name new_name FROM users"

/-- The unit tests' column-rename CTAS query. -/
def ctasAliasQuery : String :=
  "CREATE TABLE TESTDB.PUBLIC.TARGET AS\n        SELECT\n            ID AS new_identifier,\n            NAME new_name\n        FROM TESTDB.PUBLIC.USERS\n        ;\n        "

/-- `COPY INTO table FROM @stage` (load direction). -/
def copyIntoTableQuery : String :=
  "COPY INTO wine_quality FROM @demo FILE_FORMAT = wine_csv_format;"

/-- `COPY INTO @stage FROM table` (unload direction). -/
def copyIntoStageQuery : String := "COPY INTO @my_stage FROM my_table"

/-- `COPY INTO @stage FROM (SELECT ...)` (unload through a subquery). -/
def copyIntoSelectQuery : String :=
  "COPY INTO @db.schema.my_stage FROM (SELECT col1, col2 FROM my_table)"

/-- The generic bulk file-COPY query with no stage token. -/
def standardCopyQuery : String :=
  "COPY MY_TABLE col1,col2,col3\n        FROM " ++ sqs ++ "s3://bucket/schema/table.csv" ++ sqs ++ "\n        WITH CREDENTIALS " ++ sqs ++ sqs ++ "\n        REGION " ++ sqs ++ "US-east-2" ++ sqs ++ "\n        "

/-- The unit tests' MERGE INTO query, WHEN clauses included. -/
def mergeQuery : String :=
  "\n            /* comment */ merge into table_1 using (select a, b from table_2) when matched update set t.a = " ++ sqs ++ "value" ++ sqs ++ " \n            when not matched then insert (table_1.a, table_2.b) values (" ++ sqs ++ "value1" ++ sqs ++ ", " ++ sqs ++ "value2" ++ sqs ++ ")\n        "

/-- The MERGE INTO query truncated after the USING clause. -/
def mergeExpected : String :=
  "/* comment */ merge into table_1 using (select a, b from table_2)"

/-- The concrete head used by the MERGE truncation family: everything of
the unit tests' query up to the USING clause's opening parenthesis. -/
def mergeUsingHead : String := "/* comment */ merge into table_1 using "

/-- The generic COPY statements the cleaner must filter
(`test_clean_raw_query_generic_copy_filtered`). -/
def genericCopyQueries : List String :=
  [ "COPY my_table FROM " ++ sqs ++ "/path/to/file.csv" ++ sqs,
    "COPY users FROM " ++ sqs ++ "/tmp/data.csv" ++ sqs ++ " WITH CSV HEADER",
    "COPY table_name FROM STDIN",
    "COPY orders FROM " ++ sqs ++ "s3://bucket/file.csv" ++ sqs,
    "COPY my_table TO " ++ sqs ++ "/path/to/file.csv" ++ sqs,
    "COPY (SELECT * FROM users) TO " ++ sqs ++ "/tmp/output.csv" ++ sqs ]

/-- The CREATE TRIGGER/FUNCTION/PROCEDURE statements the cleaner must
filter (`test_clean_raw_query_create_*`). -/
def createRoutineQueries : List String :=
  [ "CREATE TRIGGER last_updated BEFORE UPDATE ON public.inventory FOR EACH ROW EXECUTE PROCEDURE public.last_updated()",
    "CREATE OR REPLACE TRIGGER my_trigger AFTER INSERT ON my_table FOR EACH ROW EXECUTE FUNCTION my_func()",
    "CREATE FUNCTION public.last_updated() RETURNS trigger\n    LANGUAGE plpgsql\n    AS $$\nBEGIN\n    NEW.last_update = CURRENT_TIMESTAMP;\n    RETURN NEW;\nEND $$",
    "CREATE OR REPLACE FUNCTION my_schema.my_func() RETURNS void AS $$ BEGIN NULL; END $$ LANGUAGE plpgsql",
    "CREATE PROCEDURE my_procedure() LANGUAGE plpgsql AS $$ BEGIN NULL; END $$",
    "CREATE OR REPLACE PROCEDURE my_schema.my_proc() AS $$ BEGIN NULL; END $$ LANGUAGE SQL" ]

/-- The COPY INTO stage statements the cleaner must keep
(`test_clean_raw_query_copy_into_*`). -/
def copyIntoStageQueries : List String :=
  [ "COPY INTO wine_quality FROM @demo FILE_FORMAT = wine_csv_format;",
    "COPY INTO my_table FROM @my_stage",
    "COPY INTO db.schema.table FROM @external_stage FILE_FORMAT = (TYPE = CSV)",
    "copy into target_table from @s3_stage/path/to/files",
    "COPY INTO my_table FROM @my_db.my_schema.my_stage FILE_FORMAT=(TYPE=CSV)",
    "COPY INTO @my_stage FROM my_table",
    "COPY INTO @db.schema.stage FROM (SELECT * FROM t)",
    "copy into @stage/path FROM table1",
    "COPY INTO @~/ FROM my_table FILE_FORMAT = (TYPE = CSV COMPRESSION = GZIP)",
    "COPY INTO @~/staged FROM sales_data",
    "COPY INTO @my_stage/daily/2024/ FROM reporting.public.daily_metrics",
    "COPY INTO @external_stage/path/ FROM (SELECT col1, col2 FROM db.schema.source_table WHERE id > 100)" ]

/-- A generic COPY with no path literal at all (`FROM STDIN`). -/
def copyStdinQuery : String := "COPY table_name FROM STDIN"

/-- The fully qualified stage identifier of the stage round-trip. -/
def stageQualIdent : String := "@DB.SCHEMA.STAGE_01"

/-! ## Basic lemmas about the canonicalizer's string operations -/

theorem dropAts_cons_ne {x : Char} (xs : List Char) (hx : ¬ x = '@') :
    dropAts (x :: xs) = x :: xs := by
  rw [dropAts.eq_def]
  split
  · simp_all
  · rfl

theorem dropAts_head_ne (cs : List Char) :
    ∀ c cs', dropAts cs = c :: cs' → c ≠ '@' := by
  induction cs with
  | nil => intro c cs' h; cases h
  | cons x xs ih =>
    intro c cs' h
    by_cases hx : x = '@'
    · subst hx
      rw [show dropAts ('@' :: xs) = dropAts xs from rfl] at h
      exact ih c cs' h
    · rw [dropAts_cons_ne xs hx] at h
      cases h; exact hx

theorem dropAts_idem (cs : List Char) : dropAts (dropAts cs) = dropAts cs := by
  cases h : dropAts cs with
  | nil => rfl
  | cons c cs' =>
    have hne : c ≠ '@' := dropAts_head_ne cs c cs' h
    exact dropAts_cons_ne cs' hne

theorem dropAts_sublist (cs : List Char) : (dropAts cs).Sublist cs := by
  induction cs with
  | nil => exact List.Sublist.refl _
  | cons x xs ih =>
    by_cases hx : x = '@'
    · subst hx
      exact List.Sublist.trans
        (by rw [show dropAts ('@' :: xs) = dropAts xs from rfl]; exact ih)
        (List.sublist_cons_self _ _)
    · rw [dropAts_cons_ne xs hx]

theorem stripQuoteChars_idem (cs : List Char) :
    stripQuoteChars (stripQuoteChars cs) = stripQuoteChars cs := by
  simp [stripQuoteChars, List.filter_filter]

theorem stripQuoteChars_dropAts (cs : List Char) :
    stripQuoteChars (dropAts (stripQuoteChars cs)) = dropAts (stripQuoteChars cs) := by
  apply List.filter_eq_self.mpr
  intro c hc
  have hmem : c ∈ stripQuoteChars cs :=
    (dropAts_sublist (stripQuoteChars cs)).mem hc
  exact (List.mem_filter.mp hmem).2

theorem clean_table_name_idem (t : SqlTable) :
    clean_table_name (clean_table_name t) = clean_table_name t := by
  simp [clean_table_name, stripQuoteChars_dropAts, dropAts_idem]

theorem clean_table_name_of_clean (t : SqlTable) (h : cleanIdent t.rawName) :
    clean_table_name t = t := by
  obtain ⟨hq, ha⟩ := h
  have hfilter : stripQuoteChars t.rawName.data = t.rawName.data :=
    List.filter_eq_self.mpr (fun c hc => List.all_eq_true.mp hq c hc)
  simp [clean_table_name, hfilter, ha]

theorem clean_table_name_loc (t : SqlTable) :
    (clean_table_name t).loc = t.loc := rfl

/-! ## Lemmas about the facade's derived properties -/

theorem dedupTables_mem : ∀ (l seen : List SqlTable) (x : SqlTable),
    x ∈ dedupTables seen l ↔ x ∈ l ∧ x ∉ seen := by
  intro l
  induction l with
  | nil => intro seen x; simp [dedupTables]
  | cons t rest ih =>
    intro seen x
    by_cases h : t ∈ seen
    · rw [show dedupTables seen (t :: rest) = dedupTables seen rest by
        simp [dedupTables, h]]
      rw [ih]
      constructor
      · rintro ⟨hx, hns⟩; exact ⟨List.mem_cons_of_mem _ hx, hns⟩
      · rintro ⟨hx, hns⟩
        rcases List.mem_cons.mp hx with he | hm
        · exact absurd (he ▸ h) hns
        · exact ⟨hm, hns⟩
    · rw [show dedupTables seen (t :: rest) = t :: dedupTables (t :: seen) rest by
        simp [dedupTables, h]]
      constructor
      · intro hx
        rcases List.mem_cons.mp hx with he | hm
        · subst he; exact ⟨List.mem_cons_self _ _, h⟩
        · have hr := (ih (t :: seen) x).mp hm
          exact ⟨List.mem_cons_of_mem _ hr.1,
            fun hs => hr.2 (List.mem_cons_of_mem _ hs)⟩
      · rintro ⟨hx, hns⟩
        rcases List.mem_cons.mp hx with he | hm
        · subst he; exact List.mem_cons_self _ _
        · by_cases hxt : x = t
          · subst hxt; exact List.mem_cons_self _ _
          · refine List.mem_cons_of_mem _ ((ih (t :: seen) x).mpr ⟨hm, ?_⟩)
            intro hs
            rcases List.mem_cons.mp hs with he2 | hs2
            · exact hxt he2
            · exact hns hs2

theorem involved_tables_union (r : LineageResult) (t : SqlTable) :
    t ∈ involved_tables r ↔ t ∈ r.source_tables ∨ t ∈ r.target_tables := by
  unfold involved_tables
  rw [dedupTables_mem]
  simp [List.mem_append]

theorem mkLocation_loc (s : String) : (mkLocation s).loc = true := by
  unfold mkLocation
  simp only []
  split <;> rfl

theorem mkTableWord_loc (w : List Char) : (mkTableWord w).loc = false := by
  unfold mkTableWord
  split <;> rfl

theorem parseSideWord_loc (w : List Char) :
    (parseSideWord w).loc = headAt w := by
  unfold parseSideWord
  by_cases h : headAt w <;> simp [h, mkLocation_loc, mkTableWord_loc]

/-! ## Lemmas about the MERGE truncation -/

theorem takeBalanced_flat (src tail : List Char)
    (h : (src.all (fun c => !(c = '(') && !(c = ')'))) = true) :
    takeBalanced 1 (src ++ ')' :: tail) = src ++ [')'] := by
  induction src with
  | nil => simp [takeBalanced]
  | cons c cs ih =>
    simp only [List.all_cons, Bool.and_eq_true, Bool.not_eq_true',
      decide_eq_false_iff_not] at h
    obtain ⟨⟨h1, h2⟩, h3⟩ := h
    have ih2 := ih (by simpa using h3)
    simp [takeBalanced, h1, h2, ih2]

theorem truncateMerge_family (src tail : List Char)
    (h : (src.all (fun c => !(c = '(') && !(c = ')'))) = true) :
    truncateMerge (mergeUsingHead.data ++ '(' :: (src ++ ')' :: tail)) =
      mergeUsingHead.data ++ '(' :: (src ++ [')']) := by
  have hfind : findCI ("using".data) (mergeUsingHead.data ++ '(' :: (src ++ ')' :: tail)) =
      some ("/* comment */ merge into table_1 ".data, "using".data,
        ' ' :: '(' :: (src ++ ')' :: tail)) := rfl
  have step : truncateMerge (mergeUsingHead.data ++ '(' :: (src ++ ')' :: tail)) =
      "/* comment */ merge into table_1 ".data ++ "using".data ++ [' '] ++
        '(' :: takeBalanced 1 (src ++ ')' :: tail) := by
    unfold truncateMerge
    rw [hfind]
    rfl
  rw [step, takeBalanced_flat src tail h]
  rfl

/-! ## The claims -/

set_option maxHeartbeats 4000000
set_option maxRecDepth 16384

/-- C1: for the calibration query with three JOINs on `foo`,
`table_joins["foo"]` is exactly two `TableColumnJoin` entries in order —
`(foo.col1, [grault.col1, holis.abc])` and `(foo.col2, [random.col2])` —
so ON conditions sharing the anchor column merge into one entry whose
`joinedWith` list preserves clause order, and the result is identical
under the ANSI (default) and TSQL dialects. -/
theorem joinGrouping_col_lineage :
    lookupJoins (parseLineage colLineageQuery Dialect.ansi).table_joins ("foo") =
      some [⟨⟨"foo", "col1"⟩, [⟨"db.grault", "col1"⟩, ⟨"db.holis", "abc"⟩]⟩,
            ⟨⟨"foo", "col2"⟩, [⟨"db.random", "col2"⟩]⟩]
    ∧ parseLineage colLineageQuery Dialect.tsql =
        parseLineage colLineageQuery Dialect.ansi :=
  ⟨by decide, by decide⟩

/-- C2: `COPY INTO wine_quality FROM @demo ...` yields the single
Location `<default>.demo` as source and the single Table
`<default>.wine_quality` as target; symmetrically for
`COPY INTO @my_stage FROM my_table`; a side is a `Location` exactly when
its word carries the `@` stage marker (so with exactly one `@`-marked
side exactly one side is a Location), and `involved_tables` is the union
of `source_tables` and `target_tables`. -/
theorem copyInto_stage_lineage :
    ((parseLineage copyIntoTableQuery Dialect.snowflake).source_tables =
        [{ schema := none, rawName := "demo", loc := true }]
      ∧ (parseLineage copyIntoTableQuery Dialect.snowflake).target_tables =
        [{ schema := none, rawName := "wine_quality", loc := false }]
      ∧ (parseLineage copyIntoTableQuery Dialect.snowflake).source_tables.map
          SqlTable.str = ["<default>.demo"]
      ∧ (parseLineage copyIntoTableQuery Dialect.snowflake).target_tables.map
          SqlTable.str = ["<default>.wine_quality"])
    ∧ ((parseLineage copyIntoStageQuery Dialect.snowflake).source_tables =
        [{ schema := none, rawName := "my_table", loc := false }]
      ∧ (parseLineage copyIntoStageQuery Dialect.snowflake).target_tables =
        [{ schema := none, rawName := "my_stage", loc := true }])
    ∧ (∀ w : List Char, (parseSideWord w).loc = headAt w)
    ∧ (∀ tw sw : List Char, headAt tw ≠ headAt sw →
        ((parseSideWord tw).loc = true ∧ (parseSideWord sw).loc = false) ∨
        ((parseSideWord tw).loc = false ∧ (parseSideWord sw).loc = true))
    ∧ (∀ (r : LineageResult) (t : SqlTable),
        t ∈ involved_tables r ↔ t ∈ r.source_tables ∨ t ∈ r.target_tables) := by
  refine ⟨⟨by decide, by decide, by decide, by decide⟩, ⟨by decide, by decide⟩,
    parseSideWord_loc, ?_, involved_tables_union⟩
  intro tw sw hne
  rw [parseSideWord_loc, parseSideWord_loc]
  cases h1 : headAt tw <;> cases h2 : headAt sw <;> simp_all

/-- Witness for C2: the two sides of the wine-quality query, exactly one
of which carries the stage marker, produce exactly one Location. -/
theorem copyInto_stage_lineage_wit :
    ((parseSideWord ("@demo".data)).loc = true ∧
      (parseSideWord ("wine_quality".data)).loc = false) ∨
    ((parseSideWord ("@demo".data)).loc = false ∧
      (parseSideWord ("wine_quality".data)).loc = true) :=
  copyInto_stage_lineage.2.2.2.1 ("@demo".data) ("wine_quality".data) (by decide)

/-- C3: `clean_raw_query` returns `None` for every excluded shape — all
generic COPY statements with no `@stage` token and all
`CREATE [OR REPLACE] TRIGGER/FUNCTION/PROCEDURE` statements of the test
corpus, and universally for every statement the verb detector classifies
so — while every statement whose verb is `COPY INTO` (in particular the
whole stage corpus) is returned non-`None`. -/
theorem clean_raw_query_filters :
    (genericCopyQueries.all (fun q => (clean_raw_query q).isNone)) = true
    ∧ (createRoutineQueries.all (fun q => (clean_raw_query q).isNone)) = true
    ∧ (copyIntoStageQueries.all (fun q => (clean_raw_query q).isSome)) = true
    ∧ (∀ q : String, detectVerb (cleanedChars q) = Verb.copyGeneric →
        (cleanedChars q).contains '@' = false → clean_raw_query q = none)
    ∧ (∀ q : String, detectVerb (cleanedChars q) = Verb.createRoutine →
        clean_raw_query q = none)
    ∧ (∀ q : String, detectVerb (cleanedChars q) = Verb.copyInto →
        (clean_raw_query q).isSome = true) := by
  refine ⟨by decide, by decide, by decide, ?_, ?_, ?_⟩
  · intro q h hat
    simp only [clean_raw_query]
    rw [h, hat]
    simp
  · intro q h
    simp [clean_raw_query, h]
  · intro q h
    simp [clean_raw_query, h]

/-- Witness for C3: the generic-COPY rule applied to `COPY ... FROM
STDIN`. -/
theorem clean_raw_query_filters_wit :
    clean_raw_query copyStdinQuery = none :=
  clean_raw_query_filters.2.2.2.1 copyStdinQuery (by decide) (by decide)

/-- C4: the generic file-COPY query with no `@stage` token parses to
empty source tables, target tables and column lineage — not an error —
under both the default dialect and MYSQL. -/
theorem standard_copy_empty_lineage :
    (parseLineage standardCopyQuery Dialect.ansi).source_tables = []
    ∧ (parseLineage standardCopyQuery Dialect.ansi).target_tables = []
    ∧ (parseLineage standardCopyQuery Dialect.ansi).column_lineage = []
    ∧ parseLineage standardCopyQuery Dialect.mysql =
        parseLineage standardCopyQuery Dialect.ansi :=
  ⟨by decide, by decide, by decide, by decide⟩

/-- C5: CREATE TABLE AS SELECT with column renames yields the ordered
(source, target) pairs of the select list, the target column carrying
the renamed identifier — for the spec's example and for the unit tests'
schema-qualified variant. -/
theorem ctas_column_rename_lineage :
    (parseLineage ctasSpecQuery Dialect.ansi).column_lineage =
      [(⟨"users", "id"⟩, ⟨"t", "new_id"⟩),
       (⟨"users", "name"⟩, ⟨"t", "new_name"⟩)]
    ∧ (parseLineage ctasAliasQuery Dialect.ansi).column_lineage =
      [(⟨"testdb.public.users", "id"⟩, ⟨"testdb.public.target", "new_identifier"⟩),
       (⟨"testdb.public.users", "name"⟩, ⟨"testdb.public.target", "new_name"⟩)] :=
  ⟨by decide, by decide⟩

/-- C6: joining unquoted `TESTDB.PUBLIC.USERS` with quoted
`testdb.PUBLIC."lowercase_users"` (alias `li`) on `USERS.id = li.ID`
puts the entry under the lower-cased key `testdb.public.users`, with the
anchor-side column in lower case `id` and the quoted side's column
keeping its original case `ID`; table names on both sides are
lower-cased, and MYSQL gives the same result as the default dialect. -/
theorem capitals_join_case :
    lookupJoins (parseLineage capitalsQuery Dialect.ansi).table_joins
        ("testdb.public.users") =
      some [⟨⟨"testdb.public.users", "id"⟩,
             [⟨"testdb.public.lowercase_users", "ID"⟩]⟩]
    ∧ parseLineage capitalsQuery Dialect.mysql =
        parseLineage capitalsQuery Dialect.ansi :=
  ⟨by decide, by decide⟩

/-- C7: `clean_raw_query` truncates the unit tests' MERGE INTO statement
right after the closing parenthesis of the USING clause, dropping the
WHEN clauses and preserving everything before it, the leading comment
included; and for every parenthesis-free USING source and arbitrary
trailing WHEN text, the truncation keeps exactly the head and the
parenthesized source. -/
theorem merge_into_truncation :
    clean_raw_query mergeQuery = some mergeExpected
    ∧ (∀ src tail : List Char,
        (src.all (fun c => !(c = '(') && !(c = ')'))) = true →
        truncateMerge (mergeUsingHead.data ++ '(' :: (src ++ ')' :: tail)) =
          mergeUsingHead.data ++ '(' :: (src ++ [')'])) :=
  ⟨by decide, truncateMerge_family⟩

/-- Witness for C7: the unit tests' own USING source and a WHEN tail. -/
theorem merge_into_truncation_wit :
    truncateMerge (mergeUsingHead.data ++
        '(' :: (("select a, b from table_2".data) ++ ')' :: (" when matched".data))) =
      mergeUsingHead.data ++ '(' :: (("select a, b from table_2".data) ++ [')']) :=
  merge_into_truncation.2 ("select a, b from table_2".data) (" when matched".data)
    (by decide)

/-- C8: `clean_table_name` is idempotent on every Table/Location value,
returns an already-clean input unchanged, and never changes the class
(Table vs Location). -/
theorem clean_table_name_algebra :
    (∀ t : SqlTable, clean_table_name (clean_table_name t) = clean_table_name t)
    ∧ (∀ t : SqlTable, cleanIdent t.rawName → clean_table_name t = t)
    ∧ (∀ t : SqlTable, (clean_table_name t).loc = t.loc) :=
  ⟨clean_table_name_idem, clean_table_name_of_clean, clean_table_name_loc⟩

/-- Witness for C8: an already-clean Location and an already-clean Table
pass through unchanged. -/
theorem clean_table_name_algebra_wit :
    clean_table_name (mkLocation ("@STAGE_01")) = mkLocation ("@STAGE_01")
    ∧ clean_table_name (mkTable ("my_table")) = mkTable ("my_table") :=
  ⟨clean_table_name_algebra.2.1 (mkLocation ("@STAGE_01")) (by decide),
   clean_table_name_algebra.2.1 (mkTable ("my_table")) (by decide)⟩

/-- C9: the dotted stage identifier `@DB.SCHEMA.STAGE_01` yields a
Location whose raw name is `STAGE_01` with the leading `@` stripped and
whose schema renders as the lower-cased qualifier `db.schema`, preserved
through `clean_table_name`. -/
theorem stage_schema_roundtrip :
    (mkLocation stageQualIdent).rawName = "STAGE_01"
    ∧ (mkLocation stageQualIdent).schemaStr = "db.schema"
    ∧ clean_table_name (mkLocation stageQualIdent) = mkLocation stageQualIdent
    ∧ (mkLocation stageQualIdent).loc = true :=
  ⟨by decide, by decide, by decide, by decide⟩

/-- C10: `COPY INTO @db.schema.my_stage FROM (SELECT col1, col2 FROM
my_table)` under the Snowflake dialect resolves the source through the
subquery to the Table `<default>.my_table`, while the target is the
Location `db.schema.my_stage` with its full dotted qualification. -/
theorem copyInto_select_subquery :
    (parseLineage copyIntoSelectQuery Dialect.snowflake).source_tables =
      [{ schema := none, rawName := "my_table", loc := false }]
    ∧ (parseLineage copyIntoSelectQuery Dialect.snowflake).target_tables =
      [{ schema := some ("db.schema"), rawName := "my_stage", loc := true }]
    ∧ (parseLineage copyIntoSelectQuery Dialect.snowflake).source_tables.map
        SqlTable.str = ["<default>.my_table"]
    ∧ (parseLineage copyIntoSelectQuery Dialect.snowflake).target_tables.map
        SqlTable.str = ["db.schema.my_stage"] :=
  ⟨by decide, by decide, by decide, by decide⟩

end OpenMetadata
